import Mathlib

/-
Verification of the keyway CLI secret-set reconciliation engine
(internal/cmd/push.go and pull.go) against its specification.

Go strings are modelled as lists of characters; Go maps as association
lists whose list order stands for the (unspecified) map iteration order,
with assignment replacing an existing key in place.
-/

set_option maxRecDepth 4000

namespace Keyway

/-- Strings of the Go program, modelled as lists of characters. -/
abbrev Str := List Char

/-- A Go map from string to string: an association list with unique keys.
The list order stands for Go's (unspecified) map iteration order. -/
abbrev GoMap := List (Str × Str)

/-- Characters trimmed by Go strings.TrimSpace (unicode.IsSpace, Latin-1 range). -/
def isSpaceChar (c : Char) : Bool :=
  c = ' ' || c = '\t' || c = '\n' || c = '\x0b' || c = '\x0c' || c = '\r' ||
  c = '\x85' || c = '\xa0'

/-- Go strings.TrimSpace, left side. -/
def trimLeftSpace (s : Str) : Str := s.dropWhile isSpaceChar

/-- Go strings.TrimSpace, right side. -/
def trimRightSpace (s : Str) : Str := (s.reverse.dropWhile isSpaceChar).reverse

/-- Go strings.TrimSpace: trims whitespace from both ends. -/
def trimSpace (s : Str) : Str := trimLeftSpace (trimRightSpace s)

/-- Go strings.Split(content, newline): splits into the list of lines. -/
def splitOnNl : Str → List Str
  | [] => [[]]
  | c :: rest =>
    match splitOnNl rest with
    | [] => [[c]]
    | first :: others =>
      if c = '\n' then [] :: first :: others else (c :: first) :: others

/-- Go strings.HasPre: whether the second argument starts the first. -/
def strStartsWith : Str → Str → Bool
  | _, [] => true
  | [], _ :: _ => false
  | c :: cs, p :: ps => if c = p then strStartsWith cs ps else false

/-- Go strings.Index(line, eq) followed by the two slices: the part before the
first equals sign and the part after it, or none when there is no equals sign. -/
def splitAtFirstEq : Str → Option (Str × Str)
  | [] => none
  | c :: rest =>
    if c = '=' then some ([], rest)
    else
      match splitAtFirstEq rest with
      | none => none
      | some (pre, post) => some (c :: pre, post)

/-- Lookup in a Go map: the value stored at a key, if any. -/
def mapLookup : GoMap → Str → Option Str
  | [], _ => none
  | (k1, v1) :: rest, k => if k1 = k then some v1 else mapLookup rest k

/-- Assignment m[k] = v in a Go map: replaces the value when the key exists,
otherwise adds the new pair. -/
def mapInsert : GoMap → Str → Str → GoMap
  | [], k, v => [(k, v)]
  | (k1, v1) :: rest, k, v =>
    if k1 = k then (k, v) :: rest else (k1, v1) :: mapInsert rest k v

/-- The keys of a Go map are pairwise distinct. Holds for every map the Go
runtime hands to range loops. -/
def keysNodup (m : GoMap) : Prop := (m.map Prod.fst).Nodup

/-- The quote-stripping step of parseEnvContent: when the value has length at
least two and its first and last characters are both a double quote or both a
single quote, one layer is removed. -/
def stripQuotes (value : Str) : Str :=
  if 2 ≤ value.length ∧
      ((value.head? = some '"' ∧ value.getLast? = some '"') ∨
       (value.head? = some '\'' ∧ value.getLast? = some '\'')) then
    (value.drop 1).dropLast
  else value

/-- The body of the parseEnvContent loop for one raw line: trim, skip blank
and comment lines, split at the first equals sign, trim the key, strip one
quote layer from the value, and drop lines with an empty key. -/
def lineKV (rawLine : Str) : Option (Str × Str) :=
  let line := trimSpace rawLine
  if line = [] then none
  else if strStartsWith line ['#'] then none
  else
    match splitAtFirstEq line with
    | none => none
    | some (keyPart, valuePart) =>
      let key := trimSpace keyPart
      let value := stripQuotes valuePart
      if key = [] then none else some (key, value)

/-- One iteration of the parseEnvContent loop: assign into the result map when
the line yields a key and value. -/
def parseStep (m : GoMap) (rawLine : Str) : GoMap :=
  match lineKV rawLine with
  | some kv => mapInsert m kv.1 kv.2
  | none => m

/-- parseEnvContent from push.go: fold the per-line step over the lines. -/
def parseEnvContent (content : Str) : GoMap :=
  (splitOnNl content).foldl parseStep []

/-- The pushDiff struct of push.go: keys to create, update and delete. -/
structure PushDiff where
  added : List Str
  changed : List Str
  removed : List Str
deriving DecidableEq, Repr

/-- hasChanges on a pushDiff. -/
def PushDiff.hasChanges (d : PushDiff) : Bool :=
  0 < d.added.length || 0 < d.changed.length || 0 < d.removed.length

/-- First loop of calculatePushDiff: ranges over the local map, bucketing each
key as changed (present in vault with a different value) or added (absent). -/
def pushLoopLocal (vaultMap : GoMap) : GoMap → PushDiff → PushDiff
  | [], d => d
  | (key, localVal) :: rest, d =>
    pushLoopLocal vaultMap rest
      (match mapLookup vaultMap key with
       | some vaultVal =>
         if localVal ≠ vaultVal then { d with changed := d.changed ++ [key] } else d
       | none => { d with added := d.added ++ [key] })

/-- Second loop of calculatePushDiff: ranges over the vault map, bucketing
keys absent from the local map as removed. -/
def pushLoopVault (localMap : GoMap) : GoMap → PushDiff → PushDiff
  | [], d => d
  | (key, _) :: rest, d =>
    pushLoopVault localMap rest
      (if mapLookup localMap key = none then { d with removed := d.removed ++ [key] } else d)

/-- calculatePushDiff from push.go. -/
def calculatePushDiff (localMap vaultMap : GoMap) : PushDiff :=
  pushLoopVault localMap vaultMap (pushLoopLocal vaultMap localMap ⟨[], [], []⟩)

/-- The secretsDiff struct of pull.go. -/
structure SecretsDiff where
  added : List Str
  changed : List Str
  localOnly : List Str
  unchanged : List Str
deriving DecidableEq, Repr

/-- hasChanges on a secretsDiff: true when a bucket other than unchanged is
non-empty. -/
def SecretsDiff.hasChanges (d : SecretsDiff) : Bool :=
  0 < d.added.length || 0 < d.changed.length || 0 < d.localOnly.length

/-- First loop of calculateDiff: ranges over the vault map, bucketing each key
as changed, unchanged, or added. -/
def pullLoopVault (localMap : GoMap) : GoMap → SecretsDiff → SecretsDiff
  | [], d => d
  | (key, vaultVal) :: rest, d =>
    pullLoopVault localMap rest
      (match mapLookup localMap key with
       | some localVal =>
         if localVal ≠ vaultVal then { d with changed := d.changed ++ [key] }
         else { d with unchanged := d.unchanged ++ [key] }
       | none => { d with added := d.added ++ [key] })

/-- Second loop of calculateDiff: ranges over the local map, bucketing keys
absent from the vault as localOnly. -/
def pullLoopLocal (vaultMap : GoMap) : GoMap → SecretsDiff → SecretsDiff
  | [], d => d
  | (key, _) :: rest, d =>
    pullLoopLocal vaultMap rest
      (if mapLookup vaultMap key = none then { d with localOnly := d.localOnly ++ [key] } else d)

/-- calculateDiff from pull.go. -/
def calculateDiff (localMap vaultMap : GoMap) : SecretsDiff :=
  pullLoopLocal vaultMap localMap (pullLoopVault localMap vaultMap ⟨[], [], [], []⟩)

/-- Go strings.TrimRight(s, newline): removes trailing newline characters. -/
def trimRightNl (s : Str) : Str := (s.reverse.dropWhile (fun c => c = '\n')).reverse

/-- The loop of mergeSecrets that collects one KEY=VALUE line per local-only
key, in the iteration order of the local map. -/
def localOnlyLines (vaultMap : GoMap) : GoMap → List Str
  | [] => []
  | (key, value) :: rest =>
    if mapLookup vaultMap key = none then
      (key ++ '=' :: value) :: localOnlyLines vaultMap rest
    else localOnlyLines vaultMap rest

/-- mergeSecrets from pull.go: the vault content with trailing newlines
trimmed, then either a header and the local-only lines, or a single newline. -/
def mergeSecrets (vaultContent : Str) (localMap vaultMap : GoMap) : Str :=
  let result := trimRightNl vaultContent
  let lines := localOnlyLines vaultMap localMap
  if lines ≠ [] then
    result ++ ("\n\n# Local variables (not in vault)\n").data ++
      lines.foldl (fun acc line => acc ++ line ++ ['\n']) []
  else result ++ ['\n']

/-- The final-content selection of runPull: replace mode uses the vault
content as-is, merge mode calls mergeSecrets. -/
def finalPullText (force localExists : Bool) (vaultContent : Str)
    (localMap vaultMap : GoMap) : Str :=
  if force || !localExists then vaultContent
  else mergeSecrets vaultContent localMap vaultMap

/-- Go strings.TrimPre(s, p): drops p from the start of s when it starts s. -/
def strTrimPre (s p : Str) : Str :=
  if strStartsWith s p then s.drop p.length else s

/-- Go path/filepath.Base on a unix path: empty path gives a dot, trailing
slashes are removed, everything up to the last slash is dropped, and a path of
only slashes gives a single slash. -/
def filepathBase (path : Str) : Str :=
  if path = [] then ['.']
  else
    let p1 := (path.reverse.dropWhile (fun c => c = '/')).reverse
    let p2 := (p1.reverse.takeWhile (fun c => c ≠ '/')).reverse
    if p2 = [] then ['/'] else p2

/-- deriveEnvFromFile from push.go. -/
def deriveEnvFromFile (file : Str) : Str :=
  let base := filepathBase file
  if base = (".env").data then ("development").data
  else if strStartsWith base (".env.").data then strTrimPre base (".env.").data
  else ("development").data

/-- countEnvLines from pull.go: non-empty, non-comment lines. -/
def countEnvLines (content : Str) : Nat :=
  (splitOnNl content).foldl
    (fun count line =>
      let t := trimSpace line
      if t ≠ [] ∧ strStartsWith t ['#'] = false then count + 1 else count) 0

/-- The api.APIError shape used by both flows: a status code, a message
rendered to the operator, and an optional upgrade pointer. -/
structure APIError where
  statusCode : Nat
  message : Str
  upgradeURL : Str
deriving DecidableEq, Repr

/-- Result of the collaborator call client.PullSecrets. -/
inductive FetchResult
  | ok (content : Str)
  | apiErr (e : APIError)
  | otherErr (message : Str)
deriving DecidableEq, Repr

/-- Externally visible effects of a flow, in order: the remote fetch, the
remote upload, and the local file write. -/
inductive Effect
  | fetchRemote
  | upload
  | writeLocal
deriving DecidableEq, Repr

/-- Outcome of the push flow. -/
inductive PushOutcome
  | fileNotFound
  | emptyFile
  | noVariables
  | repoNotDetected
  | authFailed
  | fetchFailed (shown : Str)
  | confirmationRequired
  | abortedByUser
  | uploadFailed (shown : Str) (upgradeShown : Option Str)
  | success
deriving DecidableEq, Repr

/-- Outcome of the pull flow. -/
inductive PullOutcome
  | repoNotDetected
  | authFailed
  | fetchFailed (shown : Str) (upgradeShown : Option Str)
  | confirmationRequired
  | abortedByUser
  | writeFailed
  | success
deriving DecidableEq, Repr

/-- The tail of runPush after the vault state is known: the confirmation gate
followed by the upload. The fetch effect is already recorded by the caller. -/
def pushConfirmUpload (interactive yes confirmAnswer : Bool)
    (uploadErr : Option APIError) : PushOutcome × List Effect :=
  if !yes && interactive then
    if !confirmAnswer then (.abortedByUser, [])
    else
      match uploadErr with
      | some e =>
        (.uploadFailed e.message (if e.upgradeURL ≠ [] then some e.upgradeURL else none),
         [.upload])
      | none => (.success, [.upload])
  else if !yes then (.confirmationRequired, [])
  else
    match uploadErr with
    | some e =>
      (.uploadFailed e.message (if e.upgradeURL ≠ [] then some e.upgradeURL else none),
       [.upload])
    | none => (.success, [.upload])

/-- runPush from push.go, from the file read onward. Collaborator results are
passed in: the file content (none when the read fails), the detected repo, the
login token, the fetch result, the session flags, the interactive confirmation
answer, and the upload error. Returns the outcome and the effects in order. -/
def runPushModel (fileContent : Option Str) (repo token : Option Str)
    (fetch : FetchResult) (interactive yes confirmAnswer : Bool)
    (uploadErr : Option APIError) : PushOutcome × List Effect :=
  match fileContent with
  | none => (.fileNotFound, [])
  | some content =>
    if trimSpace content = [] then (.emptyFile, [])
    else
      let secrets := parseEnvContent content
      if secrets = [] then (.noVariables, [])
      else
        match repo with
        | none => (.repoNotDetected, [])
        | some _ =>
          match token with
          | none => (.authFailed, [])
          | some _ =>
            match fetch with
            | .apiErr e =>
              if e.statusCode = 404 then
                let r := pushConfirmUpload interactive yes confirmAnswer uploadErr
                (r.1, .fetchRemote :: r.2)
              else (.fetchFailed e.message, [.fetchRemote])
            | .otherErr m => (.fetchFailed m, [.fetchRemote])
            | .ok vaultContent =>
              let _vaultSecrets := parseEnvContent vaultContent
              let r := pushConfirmUpload interactive yes confirmAnswer uploadErr
              (r.1, .fetchRemote :: r.2)

/-- The tail of runPull after the confirmation gate: final content selection
and the file write. -/
def pullWritePhase (force localExists : Bool) (vaultContent : Str)
    (localMap vaultMap : GoMap) (writeOk : Bool) : PullOutcome × List Effect :=
  let _final := finalPullText force localExists vaultContent localMap vaultMap
  if writeOk then (.success, [.writeLocal]) else (.writeFailed, [.writeLocal])

/-- runPull from pull.go, from the repo detection onward. Collaborator results
are passed in: the detected repo, the login token, the fetch result, the local
file content (none when the file does not exist), the force flag, the session
flags, the confirmation answer, and whether the write succeeds. -/
def runPullModel (repo token : Option Str) (fetch : FetchResult)
    (localFile : Option Str) (force interactive yes confirmAnswer : Bool)
    (writeOk : Bool) : PullOutcome × List Effect :=
  match repo with
  | none => (.repoNotDetected, [])
  | some _ =>
    match token with
    | none => (.authFailed, [])
    | some _ =>
      match fetch with
      | .apiErr e =>
        (.fetchFailed e.message (if e.upgradeURL ≠ [] then some e.upgradeURL else none),
         [.fetchRemote])
      | .otherErr m => (.fetchFailed m none, [.fetchRemote])
      | .ok vaultContent =>
        let vaultSecrets := parseEnvContent vaultContent
        let localExists := localFile.isSome
        let localSecrets := match localFile with
          | some data => parseEnvContent data
          | none => []
        let _diff := calculateDiff localSecrets vaultSecrets
        if localExists then
          if !yes && interactive then
            if !confirmAnswer then (.abortedByUser, [.fetchRemote])
            else
              let r := pullWritePhase force localExists vaultContent localSecrets vaultSecrets writeOk
              (r.1, .fetchRemote :: r.2)
          else if !yes then (.confirmationRequired, [.fetchRemote])
          else
            let r := pullWritePhase force localExists vaultContent localSecrets vaultSecrets writeOk
            (r.1, .fetchRemote :: r.2)
        else
          let r := pullWritePhase force localExists vaultContent localSecrets vaultSecrets writeOk
          (r.1, .fetchRemote :: r.2)

/-- Test selecting pairs whose key is absent from the given map. -/
def absentTest (m : GoMap) (kv : Str × Str) : Bool := (mapLookup m kv.1).isNone

/-- Test selecting local pairs whose key is in the vault with another value. -/
def changedTest (vaultMap : GoMap) (kv : Str × Str) : Bool :=
  match mapLookup vaultMap kv.1 with
  | some vaultVal => decide (kv.2 ≠ vaultVal)
  | none => false

/-- Test selecting vault pairs whose key is in the local map with another value. -/
def changedTestPull (localMap : GoMap) (kv : Str × Str) : Bool :=
  match mapLookup localMap kv.1 with
  | some localVal => decide (localVal ≠ kv.2)
  | none => false

/-- Test selecting vault pairs whose key is in the local map with the same value. -/
def unchangedTest (localMap : GoMap) (kv : Str × Str) : Bool :=
  match mapLookup localMap kv.1 with
  | some localVal => decide (localVal = kv.2)
  | none => false

/-- The local-only pairs in the sense of the specification: entries of the
local SecretSet whose key is absent from the remote SecretSet. -/
def localOnlyPairs (localMap vaultMap : GoMap) : GoMap :=
  localMap.filter (absentTest vaultMap)

/-- The final pull text as the specification words it: in replace mode the
remote raw text verbatim; in merge mode the remote raw text with trailing
newlines trimmed followed by a blank line, the comment line, and one
KEY=VALUE line per local-only key each ending in a newline, or just a single
trailing newline when there is no local-only key. -/
def specFinalPullText (force localExists : Bool) (vaultContent : Str)
    (localMap vaultMap : GoMap) : Str :=
  if force || !localExists then vaultContent
  else if localOnlyPairs localMap vaultMap = [] then trimRightNl vaultContent ++ ['\n']
  else
    trimRightNl vaultContent ++ ['\n'] ++ ['\n'] ++
      ("# Local variables (not in vault)").data ++ ['\n'] ++
      ((localOnlyPairs localMap vaultMap).map (fun kv => kv.1 ++ '=' :: kv.2 ++ ['\n'])).flatten

/-- The value of the last KEY=VALUE line with the given key, in the sense of
the specification: process the lines in order and keep the latest value. -/
def lastValue (content : Str) (k : Str) : Option Str :=
  ((splitOnNl content).filterMap lineKV).foldl
    (fun acc kv => if kv.1 = k then some kv.2 else acc) none

/-! ### Exactly-one-bucket predicates -/

/-- The key sits in exactly one of the three push buckets. -/
def inExactlyOnePush (d : PushDiff) (k : Str) : Prop :=
  (k ∈ d.added ∧ ¬ k ∈ d.changed ∧ ¬ k ∈ d.removed) ∨
  (¬ k ∈ d.added ∧ k ∈ d.changed ∧ ¬ k ∈ d.removed) ∨
  (¬ k ∈ d.added ∧ ¬ k ∈ d.changed ∧ k ∈ d.removed)

instance (d : PushDiff) (k : Str) : Decidable (inExactlyOnePush d k) :=
  inferInstanceAs (Decidable (_ ∨ _))

/-- The key sits in exactly one of the four pull buckets. -/
def inExactlyOnePull (d : SecretsDiff) (k : Str) : Prop :=
  (k ∈ d.added ∧ ¬ k ∈ d.changed ∧ ¬ k ∈ d.localOnly ∧ ¬ k ∈ d.unchanged) ∨
  (¬ k ∈ d.added ∧ k ∈ d.changed ∧ ¬ k ∈ d.localOnly ∧ ¬ k ∈ d.unchanged) ∨
  (¬ k ∈ d.added ∧ ¬ k ∈ d.changed ∧ k ∈ d.localOnly ∧ ¬ k ∈ d.unchanged) ∨
  (¬ k ∈ d.added ∧ ¬ k ∈ d.changed ∧ ¬ k ∈ d.localOnly ∧ k ∈ d.unchanged)

instance (d : SecretsDiff) (k : Str) : Decidable (inExactlyOnePull d k) :=
  inferInstanceAs (Decidable (_ ∨ _))

instance (m : GoMap) : Decidable (keysNodup m) :=
  inferInstanceAs (Decidable (m.map Prod.fst).Nodup)

/-! ### Lemmas about the map model -/

theorem mapLookup_insert (m : GoMap) (k v k1 : Str) :
    mapLookup (mapInsert m k v) k1 = if k = k1 then some v else mapLookup m k1 := by
  induction m with
  | nil => simp [mapInsert, mapLookup]
  | cons hd tl ih =>
    obtain ⟨k2, v2⟩ := hd
    by_cases h2 : k2 = k
    · subst h2
      by_cases h3 : k2 = k1 <;> simp [mapInsert, mapLookup, h3]
    · by_cases h3 : k2 = k1
      · subst h3
        have hne : ¬ k = k2 := fun hh => h2 hh.symm
        simp [mapInsert, mapLookup, h2, hne]
      · simp [mapInsert, mapLookup, h2, h3, ih]

theorem mapLookup_eq_some_iff (k v : Str) :
    ∀ m : GoMap, keysNodup m → (mapLookup m k = some v ↔ (k, v) ∈ m) := by
  intro m
  induction m with
  | nil => intro _; simp [mapLookup]
  | cons hd tl ih =>
    intro h
    obtain ⟨k1, v1⟩ := hd
    simp only [keysNodup, List.map_cons, List.nodup_cons] at h
    by_cases hk : k1 = k
    · subst hk
      constructor
      · intro hv
        have hv1 : v1 = v := by simpa [mapLookup] using hv
        subst hv1
        exact List.mem_cons_self _ _
      · intro hmem
        rcases List.mem_cons.mp hmem with heq | hmem2
        · injection heq with h1 h2
          subst h2
          simp [mapLookup]
        · exact absurd (List.mem_map_of_mem Prod.fst hmem2) h.1
    · simp only [mapLookup, if_neg hk, List.mem_cons, Prod.mk.injEq]
      rw [ih h.2]
      constructor
      · exact Or.inr
      · rintro (⟨hk1, -⟩ | hmem)
        · exact absurd hk1.symm hk
        · exact hmem

theorem mapLookup_eq_none_iff (k : Str) :
    ∀ m : GoMap, mapLookup m k = none ↔ ¬ k ∈ m.map Prod.fst := by
  intro m
  induction m with
  | nil => simp [mapLookup]
  | cons hd tl ih =>
    obtain ⟨k1, v1⟩ := hd
    by_cases hk : k1 = k
    · subst hk
      simp [mapLookup]
    · have hne : ¬ k = k1 := fun hh => hk hh.symm
      simp [mapLookup, if_neg hk, ih, hne]

theorem mem_filter_map_fst {m : GoMap} (h : keysNodup m) (p : Str × Str → Bool) (k : Str) :
    k ∈ (m.filter p).map Prod.fst ↔ ∃ v, mapLookup m k = some v ∧ p (k, v) = true := by
  constructor
  · intro hk
    obtain ⟨⟨k1, v1⟩, hmem, hfst⟩ := List.mem_map.mp hk
    obtain ⟨hin, hp⟩ := List.mem_filter.mp hmem
    cases hfst
    exact ⟨v1, (mapLookup_eq_some_iff _ _ m h).mpr hin, hp⟩
  · rintro ⟨v, hlook, hp⟩
    have hin : (k, v) ∈ m := (mapLookup_eq_some_iff _ _ m h).mp hlook
    exact List.mem_map.mpr ⟨(k, v), List.mem_filter.mpr ⟨hin, hp⟩, rfl⟩

/-! ### Characterizations of the diff loops -/

theorem pushLoopLocal_eq (vaultMap : GoMap) :
    ∀ (l : GoMap) (d : PushDiff),
      pushLoopLocal vaultMap l d =
        ⟨d.added ++ (l.filter (absentTest vaultMap)).map Prod.fst,
         d.changed ++ (l.filter (changedTest vaultMap)).map Prod.fst,
         d.removed⟩ := by
  intro l
  induction l with
  | nil => intro d; simp [pushLoopLocal]
  | cons hd tl ih =>
    intro d
    obtain ⟨k, v⟩ := hd
    cases hlook : mapLookup vaultMap k with
    | some w =>
      by_cases hne : v = w
      · subst hne
        simp [pushLoopLocal, hlook, ih, List.filter_cons, absentTest, changedTest]
      · simp [pushLoopLocal, hlook, hne, ih, List.filter_cons, absentTest, changedTest]
    | none =>
      simp [pushLoopLocal, hlook, ih, List.filter_cons, absentTest, changedTest]

theorem pushLoopVault_eq (localMap : GoMap) :
    ∀ (l : GoMap) (d : PushDiff),
      pushLoopVault localMap l d =
        ⟨d.added, d.changed,
         d.removed ++ (l.filter (absentTest localMap)).map Prod.fst⟩ := by
  intro l
  induction l with
  | nil => intro d; simp [pushLoopVault]
  | cons hd tl ih =>
    intro d
    obtain ⟨k, v⟩ := hd
    cases hlook : mapLookup localMap k with
    | some w => simp [pushLoopVault, hlook, ih, List.filter_cons, absentTest]
    | none => simp [pushLoopVault, hlook, ih, List.filter_cons, absentTest]

theorem calculatePushDiff_eq (localMap vaultMap : GoMap) :
    calculatePushDiff localMap vaultMap =
      ⟨(localMap.filter (absentTest vaultMap)).map Prod.fst,
       (localMap.filter (changedTest vaultMap)).map Prod.fst,
       (vaultMap.filter (absentTest localMap)).map Prod.fst⟩ := by
  simp [calculatePushDiff, pushLoopLocal_eq, pushLoopVault_eq]

theorem pullLoopVault_eq (localMap : GoMap) :
    ∀ (l : GoMap) (d : SecretsDiff),
      pullLoopVault localMap l d =
        ⟨d.added ++ (l.filter (absentTest localMap)).map Prod.fst,
         d.changed ++ (l.filter (changedTestPull localMap)).map Prod.fst,
         d.localOnly,
         d.unchanged ++ (l.filter (unchangedTest localMap)).map Prod.fst⟩ := by
  intro l
  induction l with
  | nil => intro d; simp [pullLoopVault]
  | cons hd tl ih =>
    intro d
    obtain ⟨k, v⟩ := hd
    cases hlook : mapLookup localMap k with
    | some w =>
      by_cases hne : w = v
      · subst hne
        simp [pullLoopVault, hlook, ih, List.filter_cons, absentTest, changedTestPull,
          unchangedTest]
      · simp [pullLoopVault, hlook, hne, ih, List.filter_cons, absentTest, changedTestPull,
          unchangedTest]
    | none =>
      simp [pullLoopVault, hlook, ih, List.filter_cons, absentTest, changedTestPull,
        unchangedTest]

theorem pullLoopLocal_eq (vaultMap : GoMap) :
    ∀ (l : GoMap) (d : SecretsDiff),
      pullLoopLocal vaultMap l d =
        ⟨d.added, d.changed,
         d.localOnly ++ (l.filter (absentTest vaultMap)).map Prod.fst,
         d.unchanged⟩ := by
  intro l
  induction l with
  | nil => intro d; simp [pullLoopLocal]
  | cons hd tl ih =>
    intro d
    obtain ⟨k, v⟩ := hd
    cases hlook : mapLookup vaultMap k with
    | some w => simp [pullLoopLocal, hlook, ih, List.filter_cons, absentTest]
    | none => simp [pullLoopLocal, hlook, ih, List.filter_cons, absentTest]

theorem calculateDiff_eq (localMap vaultMap : GoMap) :
    calculateDiff localMap vaultMap =
      ⟨(vaultMap.filter (absentTest localMap)).map Prod.fst,
       (vaultMap.filter (changedTestPull localMap)).map Prod.fst,
       (localMap.filter (absentTest vaultMap)).map Prod.fst,
       (vaultMap.filter (unchangedTest localMap)).map Prod.fst⟩ := by
  simp [calculateDiff, pullLoopVault_eq, pullLoopLocal_eq]

/-! ### Bucket membership -/

theorem mem_push_added {localMap vaultMap : GoMap} (hl : keysNodup localMap) (k : Str) :
    k ∈ (calculatePushDiff localMap vaultMap).added ↔
      (∃ v, mapLookup localMap k = some v) ∧ mapLookup vaultMap k = none := by
  rw [calculatePushDiff_eq]
  rw [show (⟨(localMap.filter (absentTest vaultMap)).map Prod.fst,
      (localMap.filter (changedTest vaultMap)).map Prod.fst,
      (vaultMap.filter (absentTest localMap)).map Prod.fst⟩ : PushDiff).added =
      (localMap.filter (absentTest vaultMap)).map Prod.fst from rfl]
  rw [mem_filter_map_fst hl]
  constructor
  · rintro ⟨v, hv, hp⟩
    refine ⟨⟨v, hv⟩, ?_⟩
    simpa [absentTest, Option.isNone_iff_eq_none] using hp
  · rintro ⟨⟨v, hv⟩, hnone⟩
    exact ⟨v, hv, by simp [absentTest, hnone]⟩

theorem mem_push_changed {localMap vaultMap : GoMap} (hl : keysNodup localMap) (k : Str) :
    k ∈ (calculatePushDiff localMap vaultMap).changed ↔
      ∃ v w, mapLookup localMap k = some v ∧ mapLookup vaultMap k = some w ∧ v ≠ w := by
  rw [calculatePushDiff_eq]
  rw [show (⟨(localMap.filter (absentTest vaultMap)).map Prod.fst,
      (localMap.filter (changedTest vaultMap)).map Prod.fst,
      (vaultMap.filter (absentTest localMap)).map Prod.fst⟩ : PushDiff).changed =
      (localMap.filter (changedTest vaultMap)).map Prod.fst from rfl]
  rw [mem_filter_map_fst hl]
  constructor
  · rintro ⟨v, hv, hp⟩
    cases hw : mapLookup vaultMap k with
    | none => simp [changedTest, hw] at hp
    | some w =>
      refine ⟨v, w, hv, rfl, ?_⟩
      simpa [changedTest, hw] using hp
  · rintro ⟨v, w, hv, hw, hne⟩
    exact ⟨v, hv, by simp [changedTest, hw, hne]⟩

theorem mem_push_removed {localMap vaultMap : GoMap} (hv : keysNodup vaultMap) (k : Str) :
    k ∈ (calculatePushDiff localMap vaultMap).removed ↔
      (∃ w, mapLookup vaultMap k = some w) ∧ mapLookup localMap k = none := by
  rw [calculatePushDiff_eq]
  rw [show (⟨(localMap.filter (absentTest vaultMap)).map Prod.fst,
      (localMap.filter (changedTest vaultMap)).map Prod.fst,
      (vaultMap.filter (absentTest localMap)).map Prod.fst⟩ : PushDiff).removed =
      (vaultMap.filter (absentTest localMap)).map Prod.fst from rfl]
  rw [mem_filter_map_fst hv]
  constructor
  · rintro ⟨w, hw, hp⟩
    refine ⟨⟨w, hw⟩, ?_⟩
    simpa [absentTest, Option.isNone_iff_eq_none] using hp
  · rintro ⟨⟨w, hw⟩, hnone⟩
    exact ⟨w, hw, by simp [absentTest, hnone]⟩

theorem mem_pull_added {localMap vaultMap : GoMap} (hv : keysNodup vaultMap) (k : Str) :
    k ∈ (calculateDiff localMap vaultMap).added ↔
      (∃ w, mapLookup vaultMap k = some w) ∧ mapLookup localMap k = none := by
  rw [calculateDiff_eq]
  rw [show (⟨(vaultMap.filter (absentTest localMap)).map Prod.fst,
      (vaultMap.filter (changedTestPull localMap)).map Prod.fst,
      (localMap.filter (absentTest vaultMap)).map Prod.fst,
      (vaultMap.filter (unchangedTest localMap)).map Prod.fst⟩ : SecretsDiff).added =
      (vaultMap.filter (absentTest localMap)).map Prod.fst from rfl]
  rw [mem_filter_map_fst hv]
  constructor
  · rintro ⟨w, hw, hp⟩
    refine ⟨⟨w, hw⟩, ?_⟩
    simpa [absentTest, Option.isNone_iff_eq_none] using hp
  · rintro ⟨⟨w, hw⟩, hnone⟩
    exact ⟨w, hw, by simp [absentTest, hnone]⟩

theorem mem_pull_changed {localMap vaultMap : GoMap} (hv : keysNodup vaultMap) (k : Str) :
    k ∈ (calculateDiff localMap vaultMap).changed ↔
      ∃ v w, mapLookup localMap k = some v ∧ mapLookup vaultMap k = some w ∧ v ≠ w := by
  rw [calculateDiff_eq]
  rw [show (⟨(vaultMap.filter (absentTest localMap)).map Prod.fst,
      (vaultMap.filter (changedTestPull localMap)).map Prod.fst,
      (localMap.filter (absentTest vaultMap)).map Prod.fst,
      (vaultMap.filter (unchangedTest localMap)).map Prod.fst⟩ : SecretsDiff).changed =
      (vaultMap.filter (changedTestPull localMap)).map Prod.fst from rfl]
  rw [mem_filter_map_fst hv]
  constructor
  · rintro ⟨w, hw, hp⟩
    cases hv1 : mapLookup localMap k with
    | none => simp [changedTestPull, hv1] at hp
    | some v =>
      refine ⟨v, w, rfl, hw, ?_⟩
      simpa [changedTestPull, hv1] using hp
  · rintro ⟨v, w, hv1, hw, hne⟩
    exact ⟨w, hw, by simp [changedTestPull, hv1, hne]⟩

theorem mem_pull_localOnly {localMap vaultMap : GoMap} (hl : keysNodup localMap) (k : Str) :
    k ∈ (calculateDiff localMap vaultMap).localOnly ↔
      (∃ v, mapLookup localMap k = some v) ∧ mapLookup vaultMap k = none := by
  rw [calculateDiff_eq]
  rw [show (⟨(vaultMap.filter (absentTest localMap)).map Prod.fst,
      (vaultMap.filter (changedTestPull localMap)).map Prod.fst,
      (localMap.filter (absentTest vaultMap)).map Prod.fst,
      (vaultMap.filter (unchangedTest localMap)).map Prod.fst⟩ : SecretsDiff).localOnly =
      (localMap.filter (absentTest vaultMap)).map Prod.fst from rfl]
  rw [mem_filter_map_fst hl]
  constructor
  · rintro ⟨v, hv1, hp⟩
    refine ⟨⟨v, hv1⟩, ?_⟩
    simpa [absentTest, Option.isNone_iff_eq_none] using hp
  · rintro ⟨⟨v, hv1⟩, hnone⟩
    exact ⟨v, hv1, by simp [absentTest, hnone]⟩

theorem mem_pull_unchanged {localMap vaultMap : GoMap} (hv : keysNodup vaultMap) (k : Str) :
    k ∈ (calculateDiff localMap vaultMap).unchanged ↔
      ∃ w, mapLookup localMap k = some w ∧ mapLookup vaultMap k = some w := by
  rw [calculateDiff_eq]
  rw [show (⟨(vaultMap.filter (absentTest localMap)).map Prod.fst,
      (vaultMap.filter (changedTestPull localMap)).map Prod.fst,
      (localMap.filter (absentTest vaultMap)).map Prod.fst,
      (vaultMap.filter (unchangedTest localMap)).map Prod.fst⟩ : SecretsDiff).unchanged =
      (vaultMap.filter (unchangedTest localMap)).map Prod.fst from rfl]
  rw [mem_filter_map_fst hv]
  constructor
  · rintro ⟨w, hw, hp⟩
    cases hv1 : mapLookup localMap k with
    | none => simp [unchangedTest, hv1] at hp
    | some v =>
      have hvw : v = w := by simpa [unchangedTest, hv1] using hp
      subst hvw
      exact ⟨v, rfl, hw⟩
  · rintro ⟨w, hv1, hw⟩
    exact ⟨w, hw, by simp [unchangedTest, hv1]⟩

/-! ### Claims about the diff engine -/

/-- C2: for every pair of maps with distinct keys, the push diff puts into
added exactly the local keys absent from the vault, into changed exactly the
keys in both maps with differing values, into removed exactly the vault keys
absent from the local map; the buckets are pairwise disjoint and keys present
in both maps with equal values appear in no bucket. -/
theorem claim_C2 (localMap vaultMap : GoMap) (hl : keysNodup localMap)
    (hv : keysNodup vaultMap) (k : Str) :
    (k ∈ (calculatePushDiff localMap vaultMap).added ↔
      (∃ v, mapLookup localMap k = some v) ∧ mapLookup vaultMap k = none) ∧
    (k ∈ (calculatePushDiff localMap vaultMap).changed ↔
      ∃ v w, mapLookup localMap k = some v ∧ mapLookup vaultMap k = some w ∧ v ≠ w) ∧
    (k ∈ (calculatePushDiff localMap vaultMap).removed ↔
      (∃ w, mapLookup vaultMap k = some w) ∧ mapLookup localMap k = none) ∧
    ¬ (k ∈ (calculatePushDiff localMap vaultMap).added ∧
       k ∈ (calculatePushDiff localMap vaultMap).changed) ∧
    ¬ (k ∈ (calculatePushDiff localMap vaultMap).added ∧
       k ∈ (calculatePushDiff localMap vaultMap).removed) ∧
    ¬ (k ∈ (calculatePushDiff localMap vaultMap).changed ∧
       k ∈ (calculatePushDiff localMap vaultMap).removed) ∧
    (∀ v, mapLookup localMap k = some v → mapLookup vaultMap k = some v →
      ¬ k ∈ (calculatePushDiff localMap vaultMap).added ∧
      ¬ k ∈ (calculatePushDiff localMap vaultMap).changed ∧
      ¬ k ∈ (calculatePushDiff localMap vaultMap).removed) := by
  refine ⟨mem_push_added hl k, mem_push_changed hl k, mem_push_removed hv k, ?_, ?_, ?_, ?_⟩
  · rintro ⟨ha, hc⟩
    obtain ⟨-, hnone⟩ := (mem_push_added hl k).mp ha
    obtain ⟨v, w, -, hw, -⟩ := (mem_push_changed hl k).mp hc
    simp [hnone] at hw
  · rintro ⟨ha, hr⟩
    obtain ⟨⟨v, hv1⟩, -⟩ := (mem_push_added hl k).mp ha
    obtain ⟨-, hnone⟩ := (mem_push_removed hv k).mp hr
    simp [hnone] at hv1
  · rintro ⟨hc, hr⟩
    obtain ⟨v, w, hv1, -, -⟩ := (mem_push_changed hl k).mp hc
    obtain ⟨-, hnone⟩ := (mem_push_removed hv k).mp hr
    simp [hnone] at hv1
  · intro v hv1 hv2
    refine ⟨?_, ?_, ?_⟩
    · intro ha
      obtain ⟨-, hnone⟩ := (mem_push_added hl k).mp ha
      simp [hnone] at hv2
    · intro hc
      obtain ⟨v1, w1, hv1x, hwx, hne⟩ := (mem_push_changed hl k).mp hc
      rw [hv1] at hv1x
      rw [hv2] at hwx
      injection hv1x with e1
      injection hwx with e2
      exact hne (e1.symm.trans e2)
    · intro hr
      obtain ⟨-, hnone⟩ := (mem_push_removed hv k).mp hr
      simp [hnone] at hv1

/-- C2 witness: the example of the spec, remote FOO=1 BAR=2 against local
FOO=1 BAZ=3, has BAZ in the added bucket. -/
theorem claim_C2_witness :
    ("BAZ").data ∈ (calculatePushDiff
      [(("FOO").data, ("1").data), (("BAZ").data, ("3").data)]
      [(("FOO").data, ("1").data), (("BAR").data, ("2").data)]).added :=
  ((claim_C2 _ _ (by decide) (by decide) (("BAZ").data)).1).mpr
    ⟨⟨("3").data, by decide⟩, by decide⟩

/-- C3 counterexample: a key present in both maps with equal values is in the
union of the key sets yet lands in no bucket of the push diff, so it does not
appear in exactly one bucket. -/
theorem claim_C3_cex :
    ("A").data ∈ (([(("A").data, ("1").data)] : GoMap).map Prod.fst ++
      ([(("A").data, ("1").data)] : GoMap).map Prod.fst) ∧
    ¬ inExactlyOnePush
      (calculatePushDiff [(("A").data, ("1").data)] [(("A").data, ("1").data)])
      (("A").data) := by
  constructor
  · decide
  · decide

/-- C3, amended: for maps with distinct keys, every key in the union of the
two key sets appears in exactly one bucket of the pull diff; for the push
diff, a key present in both maps with the same value appears in no bucket,
and every other key of the union appears in exactly one bucket; no key
appears in two buckets in either direction. -/
theorem claim_C3 (localMap vaultMap : GoMap) (hl : keysNodup localMap)
    (hv : keysNodup vaultMap) (k : Str)
    (hk : k ∈ localMap.map Prod.fst ++ vaultMap.map Prod.fst) :
    inExactlyOnePull (calculateDiff localMap vaultMap) k ∧
    ((∃ w, mapLookup localMap k = some w ∧ mapLookup vaultMap k = some w) →
      ¬ k ∈ (calculatePushDiff localMap vaultMap).added ∧
      ¬ k ∈ (calculatePushDiff localMap vaultMap).changed ∧
      ¬ k ∈ (calculatePushDiff localMap vaultMap).removed) ∧
    (¬ (∃ w, mapLookup localMap k = some w ∧ mapLookup vaultMap k = some w) →
      inExactlyOnePush (calculatePushDiff localMap vaultMap) k) := by
  cases hll : mapLookup localMap k with
  | some v =>
    cases hvv : mapLookup vaultMap k with
    | some w =>
      by_cases hvw : v = w
      · subst hvw
        refine ⟨?_, ?_, ?_⟩
        · simp [inExactlyOnePull, mem_pull_added hv k, mem_pull_changed hv k,
            mem_pull_localOnly hl k, mem_pull_unchanged hv k, hll, hvv]
        · intro _
          simp [mem_push_added hl k, mem_push_changed hl k, mem_push_removed hv k, hll, hvv]
        · intro hno
          exact absurd ⟨v, rfl, rfl⟩ hno
      · have hwv : ¬ w = v := fun hh => hvw hh.symm
        refine ⟨?_, ?_, ?_⟩
        · simp [inExactlyOnePull, mem_pull_added hv k, mem_pull_changed hv k,
            mem_pull_localOnly hl k, mem_pull_unchanged hv k, hll, hvv, hvw, hwv]
        · rintro ⟨w1, h1, h2⟩
          injection h1 with e1
          injection h2 with e2
          exact absurd (e1.trans e2.symm) hvw
        · intro _
          simp [inExactlyOnePush, mem_push_added hl k, mem_push_changed hl k,
            mem_push_removed hv k, hll, hvv, hvw]
    | none =>
      refine ⟨?_, ?_, ?_⟩
      · simp [inExactlyOnePull, mem_pull_added hv k, mem_pull_changed hv k,
          mem_pull_localOnly hl k, mem_pull_unchanged hv k, hll, hvv]
      · rintro ⟨w1, -, h2⟩
        simp at h2
      · intro _
        simp [inExactlyOnePush, mem_push_added hl k, mem_push_changed hl k,
          mem_push_removed hv k, hll, hvv]
  | none =>
    cases hvv : mapLookup vaultMap k with
    | some w =>
      refine ⟨?_, ?_, ?_⟩
      · simp [inExactlyOnePull, mem_pull_added hv k, mem_pull_changed hv k,
          mem_pull_localOnly hl k, mem_pull_unchanged hv k, hll, hvv]
      · rintro ⟨w1, h1, -⟩
        simp at h1
      · intro _
        simp [inExactlyOnePush, mem_push_added hl k, mem_push_changed hl k,
          mem_push_removed hv k, hll, hvv]
    | none =>
      exfalso
      rcases List.mem_append.mp hk with hmem | hmem
      · exact (mapLookup_eq_none_iff k localMap).mp hll hmem
      · exact (mapLookup_eq_none_iff k vaultMap).mp hvv hmem

/-- C3 witness for the amended statement: with local LOCAL_ONLY=x and vault
FOO=1 the key FOO is in exactly one pull bucket and, not being present in both
maps, in exactly one push bucket. -/
theorem claim_C3_witness :
    inExactlyOnePull (calculateDiff [(("LOCAL_ONLY").data, ("x").data)]
      [(("FOO").data, ("1").data)]) (("FOO").data) :=
  (claim_C3 _ _ (by decide) (by decide) (("FOO").data) (by decide)).1

/-- C4: the bucket and serialization order of the engine is the map iteration
order, not a sorted one. Two association lists that are permutations of each
other denote the same Go map, yet calculatePushDiff, calculateDiff and
mergeSecrets produce different output on them, and the added bucket comes out
in insertion order, unsorted. Go map iteration order is unspecified, so the
output is not deterministic. -/
theorem claim_C4 :
    List.Perm ([(("A").data, ("1").data), (("B").data, ("2").data)] : GoMap)
      [(("B").data, ("2").data), (("A").data, ("1").data)] ∧
    keysNodup [(("A").data, ("1").data), (("B").data, ("2").data)] ∧
    keysNodup [(("B").data, ("2").data), (("A").data, ("1").data)] ∧
    (calculatePushDiff [(("A").data, ("1").data), (("B").data, ("2").data)] []).added =
      [("A").data, ("B").data] ∧
    (calculatePushDiff [(("B").data, ("2").data), (("A").data, ("1").data)] []).added =
      [("B").data, ("A").data] ∧
    calculatePushDiff [(("A").data, ("1").data), (("B").data, ("2").data)] [] ≠
      calculatePushDiff [(("B").data, ("2").data), (("A").data, ("1").data)] [] ∧
    calculateDiff [(("A").data, ("1").data), (("B").data, ("2").data)] [] ≠
      calculateDiff [(("B").data, ("2").data), (("A").data, ("1").data)] [] ∧
    mergeSecrets ("R=0").data [(("A").data, ("1").data), (("B").data, ("2").data)] [] ≠
      mergeSecrets ("R=0").data [(("B").data, ("2").data), (("A").data, ("1").data)] [] := by
  decide

/-! ### The merge policy -/

theorem localOnlyLines_eq (vaultMap : GoMap) :
    ∀ l : GoMap, localOnlyLines vaultMap l =
      (l.filter (absentTest vaultMap)).map (fun kv => kv.1 ++ '=' :: kv.2) := by
  intro l
  induction l with
  | nil => simp [localOnlyLines]
  | cons hd tl ih =>
    obtain ⟨k, v⟩ := hd
    cases hlook : mapLookup vaultMap k with
    | some w => simp [localOnlyLines, hlook, ih, List.filter_cons, absentTest]
    | none => simp [localOnlyLines, hlook, ih, List.filter_cons, absentTest]

theorem foldl_append_lines :
    ∀ (lines : List Str) (acc : Str),
      lines.foldl (fun a line => a ++ line ++ ['\n']) acc =
        acc ++ (lines.map (fun l => l ++ ['\n'])).flatten := by
  intro lines
  induction lines with
  | nil => intro acc; simp
  | cons hd tl ih =>
    intro acc
    rw [List.foldl_cons, ih]
    simp [List.append_assoc]

theorem mergeSecrets_spec (vaultContent : Str) (localMap vaultMap : GoMap) :
    mergeSecrets vaultContent localMap vaultMap =
      if localOnlyPairs localMap vaultMap = [] then trimRightNl vaultContent ++ ['\n']
      else
        trimRightNl vaultContent ++ ['\n'] ++ ['\n'] ++
          ("# Local variables (not in vault)").data ++ ['\n'] ++
          ((localOnlyPairs localMap vaultMap).map
            (fun kv => kv.1 ++ '=' :: kv.2 ++ ['\n'])).flatten := by
  by_cases hp : localOnlyPairs localMap vaultMap = []
  · have hl : localOnlyLines vaultMap localMap = [] := by
      rw [localOnlyLines_eq]
      rw [localOnlyPairs] at hp
      simp [hp]
    simp [mergeSecrets, hl, hp]
  · have hl : localOnlyLines vaultMap localMap ≠ [] := by
      rw [localOnlyLines_eq]
      intro hcontra
      exact hp (by rw [localOnlyPairs]; exact List.map_eq_nil_iff.mp hcontra)
    simp only [mergeSecrets]
    rw [if_pos hl, if_neg hp, localOnlyLines_eq, foldl_append_lines]
    simp only [localOnlyPairs, List.map_map, List.nil_append, List.append_assoc,
      List.singleton_append, List.cons_append]
    simp only [Function.comp_def, List.append_assoc, List.cons_append]

/-- C1: the final pull text equals, for every combination of force flag, local
file existence, remote raw text and the two SecretSets, exactly what the
specification describes: the remote raw text verbatim in replace mode, and in
merge mode the trimmed remote text followed by a blank line, the comment line
and one KEY=VALUE line per local-only key each ending in a newline, or a
single trailing newline when there is none. -/
theorem claim_C1 (force localExists : Bool) (vaultContent : Str)
    (localMap vaultMap : GoMap) :
    finalPullText force localExists vaultContent localMap vaultMap =
      specFinalPullText force localExists vaultContent localMap vaultMap := by
  by_cases hmode : (force || !localExists) = true
  · simp [finalPullText, specFinalPullText, hmode]
  · simp only [Bool.not_eq_true] at hmode
    simp [finalPullText, specFinalPullText, hmode, mergeSecrets_spec]

/-! ### Duplicate keys in the parser -/

theorem mapLookup_foldl_parseStep (k : Str) :
    ∀ (lines : List Str) (m : GoMap),
      mapLookup (lines.foldl parseStep m) k =
        (lines.filterMap lineKV).foldl
          (fun acc kv => if kv.1 = k then some kv.2 else acc) (mapLookup m k) := by
  intro lines
  induction lines with
  | nil => intro m; simp
  | cons hd tl ih =>
    intro m
    cases hkv : lineKV hd with
    | none => simp [List.foldl_cons, List.filterMap_cons, parseStep, hkv, ih]
    | some kv =>
      simp only [List.foldl_cons, List.filterMap_cons, hkv, parseStep]
      rw [ih, mapLookup_insert]

/-- C7: the parse result maps every key to the value of the last KEY=VALUE
line carrying that key, and in particular parsing A=1 then A=2 yields the
single entry A=2. -/
theorem claim_C7 :
    (∀ (content k : Str),
      mapLookup (parseEnvContent content) k = lastValue content k) ∧
    parseEnvContent ("A=1\nA=2\n").data = [(("A").data, ("2").data)] := by
  constructor
  · intro content k
    rw [parseEnvContent, lastValue, mapLookup_foldl_parseStep]
    rfl
  · decide

/-! ### Quote stripping in the parser -/

theorem splitOnNl_no_nl : ∀ l : Str, (∀ c ∈ l, c ≠ '\n') → splitOnNl l = [l] := by
  intro l
  induction l with
  | nil => intro _; rfl
  | cons c rest ih =>
    intro h
    have hr : splitOnNl rest = [rest] := ih fun c1 hc1 => h c1 (List.mem_cons_of_mem _ hc1)
    have hc : ¬ c = '\n' := h c (List.mem_cons_self _ _)
    simp [splitOnNl, hr, hc]

theorem trimRightSpace_append (l : Str) (c : Char) (hc : isSpaceChar c = false) :
    trimRightSpace (l ++ [c]) = l ++ [c] := by
  simp [trimRightSpace, List.dropWhile_cons, hc]

theorem eq_append_of_getLast (q : Char) :
    ∀ v : Str, v.getLast? = some q → ∃ l0, v = l0 ++ [q] := by
  intro v
  induction v with
  | nil => intro h; simp at h
  | cons c rest ih =>
    intro h
    cases hr : rest with
    | nil =>
      subst hr
      have hcq : c = q := by simpa using h
      exact ⟨[], by simp [hcq]⟩
    | cons d tl =>
      subst hr
      rw [List.getLast?_cons_cons] at h
      obtain ⟨l0, hl0⟩ := ih h
      exact ⟨c :: l0, by simp [hl0]⟩

theorem lineKV_KEY (v l0 : Str) (q : Char) (hv : v = l0 ++ [q])
    (hq : isSpaceChar q = false) :
    lineKV ('K' :: 'E' :: 'Y' :: '=' :: v) = some (['K', 'E', 'Y'], stripQuotes v) := by
  have htrimR : trimRightSpace ('K' :: 'E' :: 'Y' :: '=' :: v) =
      'K' :: 'E' :: 'Y' :: '=' :: v := by
    subst hv
    simpa using trimRightSpace_append ('K' :: 'E' :: 'Y' :: '=' :: l0) q hq
  have htrim : trimSpace ('K' :: 'E' :: 'Y' :: '=' :: v) = 'K' :: 'E' :: 'Y' :: '=' :: v := by
    rw [trimSpace, htrimR]
    have hK : isSpaceChar 'K' = false := by decide
    simp [trimLeftSpace, List.dropWhile_cons, hK]
  have hkey : trimSpace ['K', 'E', 'Y'] = ['K', 'E', 'Y'] := by decide
  unfold lineKV
  rw [htrim]
  simp +decide [splitAtFirstEq, strStartsWith, hkey]

theorem parseEnvContent_KEY (v l0 : Str) (q : Char) (hnl : ¬ '\n' ∈ v)
    (hv : v = l0 ++ [q]) (hq : isSpaceChar q = false) :
    parseEnvContent ('K' :: 'E' :: 'Y' :: '=' :: v) = [(['K', 'E', 'Y'], stripQuotes v)] := by
  have hall : ∀ c ∈ ('K' :: 'E' :: 'Y' :: '=' :: v), c ≠ '\n' := by
    intro c hc
    simp only [List.mem_cons] at hc
    rcases hc with rfl | rfl | rfl | rfl | hc
    · decide
    · decide
    · decide
    · decide
    · exact fun hcn => hnl (hcn ▸ hc)
  rw [parseEnvContent, splitOnNl_no_nl _ hall, List.foldl_cons, List.foldl_nil]
  simp [parseStep, lineKV_KEY v l0 q hv hq, mapInsert]

/-- C8: when the raw value of a KEY=VALUE line has length at least two and its
first and last characters are both a double quote or both a single quote, the
parser strips exactly one quote layer; values with mismatched quote
characters at the two ends are left untouched; and the two concrete examples
of the specification hold. -/
theorem claim_C8 (v : Str) (hnl : ¬ '\n' ∈ v) :
    (∀ q, (q = '"' ∨ q = '\'') → 2 ≤ v.length → v.head? = some q →
      v.getLast? = some q →
      parseEnvContent (('K' :: 'E' :: 'Y' :: '=' :: v : Str)) =
        [(['K', 'E', 'Y'], (v.drop 1).dropLast)]) ∧
    (((v.head? = some '"' ∧ v.getLast? = some '\'') ∨
      (v.head? = some '\'' ∧ v.getLast? = some '"')) →
      parseEnvContent (('K' :: 'E' :: 'Y' :: '=' :: v : Str)) = [(['K', 'E', 'Y'], v)]) ∧
    parseEnvContent ("KEY=\"hello world\"").data =
      [(("KEY").data, ("hello world").data)] ∧
    parseEnvContent ("KEY='x'").data = [(("KEY").data, ("x").data)] := by
  refine ⟨?_, ?_, by decide, by decide⟩
  · intro q hquote hlen hhead hlast
    have hqs : isSpaceChar q = false := by
      rcases hquote with rfl | rfl <;> decide
    obtain ⟨l0, hl0⟩ := eq_append_of_getLast q v hlast
    rw [parseEnvContent_KEY v l0 q hnl hl0 hqs]
    have hcond : 2 ≤ v.length ∧
        ((v.head? = some '"' ∧ v.getLast? = some '"') ∨
         (v.head? = some '\'' ∧ v.getLast? = some '\'')) := by
      rcases hquote with rfl | rfl
      · exact ⟨hlen, Or.inl ⟨hhead, hlast⟩⟩
      · exact ⟨hlen, Or.inr ⟨hhead, hlast⟩⟩
    rw [stripQuotes, if_pos hcond]
  · intro hmm
    have hqs : ∃ q, v.getLast? = some q ∧ isSpaceChar q = false := by
      rcases hmm with ⟨-, h2⟩ | ⟨-, h2⟩
      · exact ⟨_, h2, by decide⟩
      · exact ⟨_, h2, by decide⟩
    obtain ⟨q, hlast, hq⟩ := hqs
    obtain ⟨l0, hl0⟩ := eq_append_of_getLast q v hlast
    rw [parseEnvContent_KEY v l0 q hnl hl0 hq]
    have hcond : ¬ (2 ≤ v.length ∧
        ((v.head? = some '"' ∧ v.getLast? = some '"') ∨
         (v.head? = some '\'' ∧ v.getLast? = some '\''))) := by
      rcases hmm with ⟨h1, h2⟩ | ⟨h1, h2⟩ <;>
        rintro ⟨-, (⟨ha, hb⟩ | ⟨ha, hb⟩)⟩ <;> simp_all
    rw [stripQuotes, if_neg hcond]

/-- C8 witness: the matched-quote case applied to the value with a double
quote at both ends around hi. -/
theorem claim_C8_witness :
    parseEnvContent (('K' :: 'E' :: 'Y' :: '=' :: ("\"hi\"").data : Str)) =
      [(['K', 'E', 'Y'], ("hi").data)] :=
  (claim_C8 (("\"hi\"").data) (by decide)).1 '"' (Or.inl rfl) (by decide) (by decide)
    (by decide)

/-! ### Orchestrator claims -/

/-- C5: in a non-interactive session without the yes flag, a push invocation
that reaches the confirm step (file readable and non-empty, variables found,
repo and login resolved, fetch successful or not-found) fails with
confirmation required and never uploads; likewise a pull invocation that
reaches the confirm step (fetch successful, local file exists) fails with
confirmation required and never writes the local file. -/
theorem claim_C5 (c vc : Str) (r t : Str) (uploadErr : Option APIError)
    (e : APIError) (r2 t2 : Str) (vc2 d2 : Str) (force2 writeOk2 : Bool)
    (hc : trimSpace c ≠ []) (hp : parseEnvContent c ≠ [])
    (h404 : e.statusCode = 404) :
    (runPushModel (some c) (some r) (some t) (.ok vc) false false false uploadErr).1 =
      .confirmationRequired ∧
    ¬ Effect.upload ∈
      (runPushModel (some c) (some r) (some t) (.ok vc) false false false uploadErr).2 ∧
    (runPushModel (some c) (some r) (some t) (.apiErr e) false false false uploadErr).1 =
      .confirmationRequired ∧
    ¬ Effect.upload ∈
      (runPushModel (some c) (some r) (some t) (.apiErr e) false false false uploadErr).2 ∧
    (runPullModel (some r2) (some t2) (.ok vc2) (some d2) force2 false false false
      writeOk2).1 = .confirmationRequired ∧
    ¬ Effect.writeLocal ∈
      (runPullModel (some r2) (some t2) (.ok vc2) (some d2) force2 false false false
        writeOk2).2 := by
  refine ⟨?_, ?_, ?_, ?_, ?_, ?_⟩ <;>
    simp [runPushModel, runPullModel, pushConfirmUpload, hc, hp, h404]

/-- C5 witness: a concrete non-interactive push and pull without the yes flag. -/
theorem claim_C5_witness :
    (runPushModel (some ("A=1").data) (some []) (some []) (.ok []) false false false
      none).1 = .confirmationRequired := by
  have h := claim_C5 ("A=1").data [] [] [] none ⟨404, [], []⟩ [] [] [] ("B=2").data
    false true (by decide) (by decide) (by decide)
  exact h.1

/-- C6: during the push preview fetch, a not-found response from the vault is
silently converted to an empty remote SecretSet and the flow continues
exactly as if the vault had returned empty content; in pull, every fetch
error — any API error whatever its status, a not-found one included, and any
transport error — aborts the flow before the local file write and is reported
with the upgrade pointer propagated verbatim when present. -/
theorem claim_C6 (c : Str) (r t : Str) (e : APIError)
    (interactive yes confirmAnswer : Bool) (uploadErr : Option APIError)
    (r2 t2 : Str) (e2 : APIError) (localFile : Option Str)
    (force2 interactive2 yes2 confirmAnswer2 writeOk2 : Bool) (m2 : Str)
    (h404 : e.statusCode = 404) :
    runPushModel (some c) (some r) (some t) (.apiErr e) interactive yes confirmAnswer
        uploadErr =
      runPushModel (some c) (some r) (some t) (.ok []) interactive yes confirmAnswer
        uploadErr ∧
    (runPullModel (some r2) (some t2) (.apiErr e2) localFile force2 interactive2 yes2
        confirmAnswer2 writeOk2).1 =
      .fetchFailed e2.message (if e2.upgradeURL ≠ [] then some e2.upgradeURL else none) ∧
    ¬ Effect.writeLocal ∈
      (runPullModel (some r2) (some t2) (.apiErr e2) localFile force2 interactive2 yes2
        confirmAnswer2 writeOk2).2 ∧
    (runPullModel (some r2) (some t2) (.otherErr m2) localFile force2 interactive2 yes2
        confirmAnswer2 writeOk2).1 = .fetchFailed m2 none ∧
    ¬ Effect.writeLocal ∈
      (runPullModel (some r2) (some t2) (.otherErr m2) localFile force2 interactive2
        yes2 confirmAnswer2 writeOk2).2 := by
  refine ⟨?_, ?_, ?_, ?_, ?_⟩ <;>
    simp [runPushModel, runPullModel, h404]

/-- C6 witness: a 404 status response on a concrete push continues like an
empty vault, and a non-404 plan-limit error with an upgrade pointer on a
concrete pull aborts with that pointer shown. -/
theorem claim_C6_witness :
    runPushModel (some ("A=1").data) (some []) (some [])
        (.apiErr ⟨404, ("nf").data, ("up").data⟩) false true false none =
      runPushModel (some ("A=1").data) (some []) (some []) (.ok []) false true false
        none ∧
    (runPullModel (some []) (some []) (.apiErr ⟨402, ("limit").data, ("up").data⟩)
        (some ("B=2").data) false false true false true).1 =
      .fetchFailed (("limit").data)
        (if (("up").data : Str) ≠ [] then some (("up").data) else none) := by
  have h := claim_C6 ("A=1").data [] [] ⟨404, ("nf").data, ("up").data⟩ false true false
    none [] [] ⟨402, ("limit").data, ("up").data⟩ (some ("B=2").data) false false false
    false true ("x").data (by decide)
  exact ⟨h.1, h.2.1⟩

/-- C9: a push invocation on a local file whose content is only whitespace
fails with the empty-file error and performs no effect at all, in particular
no network call. -/
theorem claim_C9 (c : Str) (repo token : Option Str) (fetch : FetchResult)
    (interactive yes confirmAnswer : Bool) (uploadErr : Option APIError)
    (hc : trimSpace c = []) :
    runPushModel (some c) repo token fetch interactive yes confirmAnswer uploadErr =
      (.emptyFile, []) := by
  simp [runPushModel, hc]

/-- C9 witness: a file of spaces, a tab and a newline is rejected as empty
with no effects. -/
theorem claim_C9_witness :
    runPushModel (some ("  \t\n ").data) (some []) (some []) (.ok []) true false false
        none = (.emptyFile, []) :=
  claim_C9 _ _ _ _ _ _ _ _ (by decide)

/-- C10: environment-name derivation is total over all file names: a base
name of exactly dot-env yields development, a base name starting with
dot-env-dot yields the remainder after that start, and every other base name
also yields development. -/
theorem claim_C10 (file : Str) :
    (filepathBase file = (".env").data →
      deriveEnvFromFile file = ("development").data) ∧
    (strStartsWith (filepathBase file) ((".env.").data) = true →
      deriveEnvFromFile file = (filepathBase file).drop 5) ∧
    (strStartsWith (filepathBase file) ((".env.").data) = false →
      deriveEnvFromFile file = ("development").data) := by
  refine ⟨?_, ?_, ?_⟩
  · intro h
    simp [deriveEnvFromFile, h]
  · intro h
    have hne : filepathBase file ≠ (".env").data := by
      intro heq
      rw [heq] at h
      exact absurd h (by decide)
    have hlen : ((".env.").data : Str).length = 5 := by decide
    simp [deriveEnvFromFile, strTrimPre, h, hne, hlen]
  · intro h
    by_cases hb : filepathBase file = (".env").data
    · simp [deriveEnvFromFile, hb]
    · simp [deriveEnvFromFile, hb, h]

/-- C10 witness: a path with a directory and the env suffix production. -/
theorem claim_C10_witness :
    deriveEnvFromFile ("config/.env.production").data =
      (filepathBase ("config/.env.production").data).drop 5 :=
  (claim_C10 (("config/.env.production").data)).2.1 (by decide)

end Keyway
